import Mathlib

/-!
Verification of the pythia-rs batch-processing engine's specification against
a shallow embedding of its Rust source.

The embedding covers, faithfully to the source files:
- `src/data.rs` (`GeoDeg`, `Site` — numeric fields are carried abstractly as
  exact rationals; no claim proved here depends on IEEE-754 `f32` rounding),
- `src/processing/context/mod.rs` (`PrimitiveContextValue`, `ContextValue`,
  `TemplateString` with its regex fragment scanner, `Serialize`/`Deserialize`,
  `Context::get`, `TemplateString::interpolate`, `ContextValue::to_prim`),
- `src/processing/context/gen.rs` (`ContextGenerator::next`),
- `src/registry/mod.rs` (`Registries::claim_namespace`, name validation),
- `src/registry/identifier.rs` (`PublicIdentifierSeed::deserialize`),
- `src/registry/serialize.rs` (`ResourceSeed::deserialize`),
- `src/config/mod.rs` (`ConfigVisitor::visit_map`),
- `src/config/runs.rs` (`RunConfig` deserialization shape),
- the `sites` seeded decoder wired by `ConfigSeedBuilder`.

The source's unbounded recursion in `interpolate`/`to_prim` is embedded with an
explicit fuel parameter; `InterpError.outOfFuel` marks exactly the executions on
which the source recurses forever (it is returned for every fuel value iff the
source diverges).
-/

namespace Pythia

/-! ## JSON model

A model of `serde_json::Value` as far as the configuration decoders need it.
JSON numbers are split into integers and non-integer numbers the way `serde`
distinguishes `i64` and `f64` when driving an untagged enum; the non-integer
payload is an exact rational stand-in for the `f64`. -/

inductive Json where
  | null : Json
  | bool (b : Bool) : Json
  | int (n : Int) : Json
  | float (q : Rat) : Json
  | str (s : String) : Json
  | arr (items : List Json) : Json
  | obj (entries : List (String × Json)) : Json

/-! ## Data model (`src/data.rs`, `src/sites/mod.rs`)

`GeoDeg` wraps an `f32` in the source. Its numeric value is modelled as an
exact rational: every claim settled in this file treats the coordinate value
opaquely (the float-formatting claim is not settled against this model). -/

/-- `GeoDeg` from `src/data.rs`: a latitude/longitude in degrees. The `f32`
payload is carried as an exact rational. -/
structure GeoDeg where
  val : Rat
deriving DecidableEq

/-- `Site` from `src/sites/mod.rs`: `{ id: i32, lon: GeoDeg, lat: GeoDeg }`. -/
structure Site where
  id : Int
  lon : GeoDeg
  lat : GeoDeg
deriving DecidableEq

/-! ## Context values (`src/processing/context/mod.rs`) -/

/-- `PrimitiveContextValue`: untagged union of JSON primitives. The `f64`
payload of `Float` is carried as an exact rational. -/
inductive Prim where
  | bool (b : Bool) : Prim
  | int (i : Int) : Prim
  | float (f : Rat) : Prim
  | str (s : String) : Prim
deriving DecidableEq

/-- `TemplateStringFragment`: literal text or a `${...}` placeholder
(constructor `template` mirrors the source's `Template(String)`). -/
inductive Fragment where
  | literal (s : String) : Fragment
  | template (key : String) : Fragment
deriving DecidableEq

/-- `TemplateString(Vec<TemplateStringFragment>)`. -/
structure TemplateString where
  frags : List Fragment
deriving DecidableEq

/-- `ContextValue`: untagged union, `TemplateString` variant declared first
(the declaration order drives untagged deserialization). -/
inductive ContextValue where
  | template (ts : TemplateString) : ContextValue
  | prim (p : Prim) : ContextValue
deriving DecidableEq

/-- Display string of an `f64`, a stand-in for Rust's `f64::to_string`; no
settled claim depends on its exact output. -/
def floatToString (q : Rat) : String := toString q

/-- `PrimitiveContextValue::as_string`. -/
def Prim.asString : Prim → String
  | .bool b => if b then "true" else "false"
  | .int i => toString i
  | .float f => floatToString f
  | .str s => s

/-- `RunConfig` from `src/config/runs.rs`: `{ name, template, extra }`.
`template` is a `PathBuf` (a plain string here); `extra` is a `HashMap`
modelled as an association list looked up by key. -/
structure RunConfig where
  name : String
  template : String
  extra : List (String × ContextValue)
deriving DecidableEq

/-- `Context` from `src/processing/context/mod.rs`: a `(site, run)` pair. -/
structure Context where
  site : Site
  run : RunConfig
deriving DecidableEq

/-- `Context::get`. The source `match`es the key against the built-in names
`"site_id"`, `"lng"`, `"lon"`, `"lat"`, `"name"` (a `&str` match, i.e. an
equality chain) before falling back to `run.extra`. -/
def Context.get (ctx : Context) (key : String) : Option ContextValue :=
  if key = "site_id" then some (.prim (.str (toString ctx.site.id)))
  else if key = "lng" then some (.prim (.float ctx.site.lon.val))
  else if key = "lon" then some (.prim (.float ctx.site.lon.val))
  else if key = "lat" then some (.prim (.float ctx.site.lat.val))
  else if key = "name" then some (.prim (.str ctx.run.name))
  else ctx.run.extra.lookup key

/-! ## Template-string fragment scanner

`TemplateString::deserialize` runs `captures_iter` of the regex
`(\$\{[^}]+}|[^$]+)` over the input. The scanner below reproduces the regex
engine's leftmost-match discipline on the character list:
- at a `'$'`, the alternative `\$\{[^}]+}` matches `"${"`, one or more
  non-`'}'` characters, and a closing `'}'`; if it fails, `[^$]+` also fails
  there and the engine advances one position;
- at any other character, `[^$]+` greedily matches the maximal run of
  non-`'$'` characters. -/

/-- All texts matched by `captures_iter` of `(\$\{[^}]+}|[^$]+)`, in order.
At a `'$' '{'` pair, `rest2.takeWhile (· ≠ '}')` is the candidate `[^}]+`
body; the match succeeds when a closing `'}'` follows a nonempty body.  On
a failed `'$'` the engine advances one position before retrying.

The first argument bounds the recursion so that the definition is structural
(and hence reduces inside the kernel); every recursive call shortens the
input by at least one character, so the bound `scanMatches` instantiates —
the input's length — is never the branch taken. -/
def scanMatchesAux : Nat → List Char → List (List Char)
  | 0, _ => []
  | _, [] => []
  | fuel + 1, '$' :: '{' :: rest2 =>
    (match rest2.dropWhile (· ≠ '}') with
     | '}' :: tail =>
       let body := rest2.takeWhile (· ≠ '}')
       if body.isEmpty then scanMatchesAux fuel ('{' :: rest2)
       else ('$' :: '{' :: (body ++ ['}'])) :: scanMatchesAux fuel tail
     | _ => scanMatchesAux fuel ('{' :: rest2))
  | fuel + 1, '$' :: rest => scanMatchesAux fuel rest
  | fuel + 1, c :: rest =>
    (c :: rest.takeWhile (· ≠ '$')) :: scanMatchesAux fuel (rest.dropWhile (· ≠ '$'))

/-- The scanner over a whole input. -/
def scanMatches (l : List Char) : List (List Char) :=
  scanMatchesAux l.length l

/-- Rust `str::trim_start_matches("${")`: repeatedly strips a leading `"${"`. -/
def trimStartDollarBrace : List Char → List Char
  | '$' :: '{' :: rest => trimStartDollarBrace rest
  | l => l

/-- Rust `str::trim_end_matches('}')`: strips every trailing `'}'`. -/
def trimEndBrace (l : List Char) : List Char :=
  ((l.reverse.dropWhile (· = '}')).reverse)

/-- Fragment classification inside `TemplateString::deserialize`: a matched
text starting with `"${"` and ending with `'}'` becomes a placeholder (with
`trim_start_matches("${")` / `trim_end_matches('}')` applied); anything else
a literal. -/
def mkFragment (matched : List Char) : Fragment :=
  if matched.take 2 = ['$', '{'] then
    if matched.getLast? = some '}' then
      .template (String.mk (trimEndBrace (trimStartDollarBrace matched)))
    else .literal (String.mk matched)
  else .literal (String.mk matched)

/-- Decode errors raised by the configuration/value decoders.  Constructors
carry the data of the corresponding `serde` error; exact message strings are
not modelled. -/
inductive DecodeError where
  /-- `serde::de::Error::unknown_field(key, ..)` -/
  | unknownField (key : String) : DecodeError
  /-- `serde::de::Error::missing_field(field)` -/
  | missingField (field : String) : DecodeError
  /-- `TemplateString::deserialize`'s custom "contains no valid fragments" error. -/
  | noFragments (s : String) : DecodeError
  /-- `PublicIdentifierSeed::deserialize`'s custom "must be `<namespace>:<id>`" error. -/
  | invalidIdentifier (s : String) : DecodeError
  /-- `ResourceSeed::deserialize`'s custom "not registered" error (carries namespace and id). -/
  | notRegistered (ns id : String) : DecodeError
  /-- serde's duplicate-field error for a repeated required field. -/
  | duplicateField (field : String) : DecodeError
  /-- A value of the wrong JSON type for the target (serde invalid-type error). -/
  | invalidType : DecodeError
deriving DecidableEq

/-- `TemplateString::deserialize`: scan the string with the fragment regex,
classify each match, and reject when there is no fragment at all. -/
def TemplateString.deserialize (s : String) : Except DecodeError TemplateString :=
  let fragments := (scanMatches s.data).map mkFragment
  if fragments.isEmpty then .error (.noFragments s)
  else .ok ⟨fragments⟩

/-- `TemplateString::serialize`: literals verbatim, placeholders re-wrapped
as `format!("${{{}}}", key)`. -/
def TemplateString.serialize (ts : TemplateString) : String :=
  ts.frags.foldl
    (fun s f =>
      match f with
      | .literal l => s ++ l
      | .template t => s ++ ("$\x7b" ++ t ++ "\x7d"))
    ""

/-- Untagged deserialization of `ContextValue` from a JSON string value: the
variants are tried in declaration order, `TemplateString` first, then
`PrimitiveContextValue` (whose `String` arm accepts any string). -/
def ContextValue.deserializeString (s : String) : ContextValue :=
  match TemplateString.deserialize s with
  | .ok ts => .template ts
  | .error _ => .prim (.str s)

/-- Untagged deserialization of `ContextValue` from any JSON value.  Non-string
primitives can only match the `Prim` variant; arrays, objects and null match
neither variant and fail. -/
def ContextValue.deserialize (j : Json) : Except DecodeError ContextValue :=
  match j with
  | .str s => .ok (ContextValue.deserializeString s)
  | .bool b => .ok (.prim (.bool b))
  | .int n => .ok (.prim (.int n))
  | .float q => .ok (.prim (.float q))
  | _ => .error .invalidType

/-! ## Interpolation (`TemplateString::interpolate`, `ContextValue::to_prim`)

The source functions recurse into each other without any bound: resolving a
placeholder whose value is itself a `TemplateString` re-enters `interpolate`.
The embedding makes the recursion depth explicit with a fuel parameter:
`interpolateF fuel` permits `fuel` levels of nested template resolution, and
`InterpError.outOfFuel` is returned exactly when the depth is exceeded.  An
execution of the source diverges iff the embedding returns
`InterpError.outOfFuel` for every fuel value. -/

/-- `ContextEvaluationError`, extended with the fuel marker for executions on
which the source's unbounded recursion does not terminate. -/
inductive InterpError where
  /-- `ContextEvaluationError::Interpolation(String)`. -/
  | interpolation (key : String) : InterpError
  /-- Fuel exhaustion: the modelled recursion depth was exceeded. -/
  | outOfFuel : InterpError
deriving DecidableEq

/-- `TemplateString::interpolate`, fragment loop.  A literal is appended; a
placeholder is looked up (`Context::get`, `Interpolation(key)` when absent) and
its value converted by `ContextValue::to_prim` — inlined here: the identity on
primitives, a re-entry into `interpolate` on template strings.

Fuel decreases on every recursive call (so that the recursion is structural
and reduces inside the kernel); it is a bound on the total number of source
evaluation steps, and any terminating source execution is reproduced exactly
by all sufficiently large fuel values. -/
def interpolateF : Nat → Context → List Fragment → Except InterpError String
  | _, _, [] => .ok ""
  | 0, _, _ :: _ => .error .outOfFuel
  | fuel + 1, ctx, .literal l :: rest =>
    (interpolateF fuel ctx rest).map (fun s => l ++ s)
  | fuel + 1, ctx, .template k :: rest =>
    match ctx.get k with
    | none => .error (.interpolation k)
    | some (.prim p) => (interpolateF fuel ctx rest).map (fun s => p.asString ++ s)
    | some (.template ts) =>
      match interpolateF fuel ctx ts.frags with
      | .error e => .error e
      | .ok sub => (interpolateF fuel ctx rest).map (fun s => sub ++ s)

/-- `ContextValue::to_prim`: primitives are cloned, template strings are
interpolated into a `String` primitive. -/
def ContextValue.toPrim (fuel : Nat) (ctx : Context) :
    ContextValue → Except InterpError Prim
  | .prim p => .ok p
  | .template ts => (interpolateF fuel ctx ts.frags).map .str

/-- The source's `interpolate` runs forever on this context/template pair:
every recursion depth is exceeded. -/
def InterpolateDiverges (ctx : Context) (frags : List Fragment) : Prop :=
  ∀ fuel, interpolateF fuel ctx frags = .error .outOfFuel

/-! ## Claims C1 and C9 -/

/-- **C1** (code_bug evidence).  Decoding the placeholder-free JSON string
`"hello"` as a `ContextValue` takes the untagged `TemplateString` variant:
the fragment scanner returns the single literal fragment `"hello"`, which is
nonempty, so `TemplateString::deserialize` accepts it — despite its own
rejection message demanding "at least one placeholder" and despite the spec
requiring `Prim(String)` for placeholder-free strings. -/
theorem c1_placeholder_free_string_decodes_to_template_string :
    ContextValue.deserializeString "hello" =
      ContextValue.template ⟨[Fragment.literal "hello"]⟩ := by
  rfl

/-- **C9**.  Decoding a `TemplateString` from `"${a}-${b}"` and reserializing
it yields `"${a}-${b}"` again: serialize is a left inverse of deserialize on
this canonical placeholder-literal-placeholder form. -/
theorem c9_template_string_roundtrip :
    (TemplateString.deserialize "${a}-${b}").map TemplateString.serialize =
      Except.ok "${a}-${b}" := by
  rfl

/-! ## Claim C6: built-ins shadow extras in `Context::get` -/

/-- The five built-in context keys of `Context::get`. -/
def builtinKeys : List String := ["site_id", "lng", "lon", "lat", "name"]

/-- **C6**.  `Context::get` on a built-in key returns a `Prim` value computed
from `site`/`run.name` only — the same value whatever `run.extra` holds, even
when `run.extra` has an entry under that key (built-ins shadow extras).  On a
non-built-in key it returns exactly the `run.extra` entry (`none` when the key
is absent there too). -/
theorem c6_get_builtins_shadow_extras (site : Site) (name template : String)
    (extra : List (String × ContextValue)) (key : String) :
    (key ∈ builtinKeys →
      ∃ p : Prim,
        (∀ extra' : List (String × ContextValue),
          Context.get ⟨site, ⟨name, template, extra'⟩⟩ key =
            some (ContextValue.prim p)) ∧
        Context.get ⟨site, ⟨name, template, extra⟩⟩ key =
          some (ContextValue.prim p)) ∧
    (key ∉ builtinKeys →
      Context.get ⟨site, ⟨name, template, extra⟩⟩ key = extra.lookup key) := by
  constructor
  · intro hmem
    simp only [builtinKeys, List.mem_cons, List.mem_singleton, List.not_mem_nil,
      or_false] at hmem
    rcases hmem with h | h | h | h | h <;> subst h
    · exact ⟨.str (toString site.id), fun _ => rfl, rfl⟩
    · exact ⟨.float site.lon.val, fun _ => rfl, rfl⟩
    · exact ⟨.float site.lon.val, fun _ => rfl, rfl⟩
    · exact ⟨.float site.lat.val, fun _ => rfl, rfl⟩
    · exact ⟨.str name, fun _ => rfl, rfl⟩
  · intro hmem
    simp only [builtinKeys, List.mem_cons, List.mem_singleton, List.not_mem_nil,
      or_false, not_or] at hmem
    obtain ⟨h1, h2, h3, h4, h5⟩ := hmem
    simp only [Context.get, h1, h2, h3, h4, h5, if_false]

/-- Closed instance of `c6_get_builtins_shadow_extras`: the built-in `"lat"`
shadows an `extra` entry of the same name, and the unknown key `"other"` falls
through to `extra`. -/
theorem c6_get_builtins_shadow_extras_witness :
    (Context.get ⟨⟨7, ⟨1⟩, ⟨2⟩⟩,
        ⟨"r1", "t", [("lat", ContextValue.prim (Prim.str "clobber"))]⟩⟩ "lat" =
      some (ContextValue.prim (Prim.float 2))) ∧
    (Context.get ⟨⟨7, ⟨1⟩, ⟨2⟩⟩,
        ⟨"r1", "t", [("lat", ContextValue.prim (Prim.str "clobber"))]⟩⟩ "other" =
      none) := by
  refine ⟨?_, ?_⟩
  · obtain ⟨p, hall, _⟩ :=
      (c6_get_builtins_shadow_extras ⟨7, ⟨1⟩, ⟨2⟩⟩ "r1" "t"
        [("lat", ContextValue.prim (Prim.str "clobber"))] "lat").1 (by decide)
    have h := hall [("lat", ContextValue.prim (Prim.str "clobber"))]
    have h0 := hall []
    have : p = Prim.float 2 := by
      have : Context.get ⟨⟨7, ⟨1⟩, ⟨2⟩⟩, ⟨"r1", "t", []⟩⟩ "lat" =
          some (ContextValue.prim (Prim.float 2)) := rfl
      rw [this] at h0
      exact (ContextValue.prim.injEq _ _ ▸ (Option.some.injEq _ _ ▸ h0.symm)).symm ▸ rfl
    rw [← this]
    exact h
  · exact (c6_get_builtins_shadow_extras ⟨7, ⟨1⟩, ⟨2⟩⟩ "r1" "t"
      [("lat", ContextValue.prim (Prim.str "clobber"))] "other").2 (by decide)

/-! ## Registry namespaces (`src/registry/mod.rs`) -/

/-- A character accepted by `RE_VALID_NAMESPACE_OR_ID`, i.e. `[a-z0-9-]`. -/
def validNameChar (c : Char) : Bool :=
  ('a' ≤ c && c ≤ 'z') || ('0' ≤ c && c ≤ '9') || c == '-'

/-- `RE_VALID_NAMESPACE_OR_ID.is_match`: the whole string is one or more
`[a-z0-9-]` characters. -/
def isValidName (s : String) : Bool :=
  !s.data.isEmpty && s.data.all validNameChar

/-- `Namespace`: the claim handle, pure data wrapping the claimed string. -/
structure Namespace where
  name : String
deriving DecidableEq

/-- The registry errors raised while claiming namespaces. -/
inductive RegistryError where
  /-- `IllegalNameError(String)`. -/
  | illegalName (s : String) : RegistryError
  /-- `NamespaceAlreadyClaimedError(Namespace)`. -/
  | namespaceAlreadyClaimed (ns : Namespace) : RegistryError
deriving DecidableEq

/-- `Registries`, restricted to the state `claim_namespace` reads and writes:
the `HashSet<Namespace>` of claimed namespaces (membership-queried, modelled
as a list). The driver registry it also holds is independent state. -/
structure Registries where
  namespaces : List Namespace
deriving DecidableEq

/-- `Registries::claim_namespace`: reject names failing `[a-z0-9-]+`
(`IllegalNameError`), reject already-claimed names
(`NamespaceAlreadyClaimedError`), otherwise insert into the claim set and hand
back the `Namespace`.  The source mutates `self`; the model returns the
updated `Registries` alongside the handle. -/
def Registries.claimNamespace (r : Registries) (namespaceStr : String) :
    Except RegistryError (Namespace × Registries) :=
  if !isValidName namespaceStr then
    .error (.illegalName namespaceStr)
  else if (⟨namespaceStr⟩ : Namespace) ∈ r.namespaces then
    .error (.namespaceAlreadyClaimed ⟨namespaceStr⟩)
  else
    .ok (⟨namespaceStr⟩, ⟨⟨namespaceStr⟩ :: r.namespaces⟩)

/-- Runs a sequence of `claim_namespace` calls; a failed call leaves the
`Registries` untouched (the caller keeps using the same state). -/
def Registries.applyClaims (r : Registries) (names : List String) : Registries :=
  names.foldl
    (fun r n =>
      match r.claimNamespace n with
      | .ok (_, r') => r'
      | .error _ => r)
    r

/-- Successful claims are exactly: valid name, not yet claimed; the state
gains the namespace. -/
theorem claimNamespace_ok_iff (r : Registries) (n : String) (ns : Namespace)
    (r' : Registries) :
    r.claimNamespace n = .ok (ns, r') ↔
      (isValidName n = true ∧ (⟨n⟩ : Namespace) ∉ r.namespaces ∧
        ns = ⟨n⟩ ∧ r' = ⟨⟨n⟩ :: r.namespaces⟩) := by
  unfold Registries.claimNamespace
  constructor
  · intro h
    split at h
    · exact absurd h (by simp)
    · next hv =>
      split at h
      · exact absurd h (by simp)
      · next hmem =>
        simp only [Except.ok.injEq, Prod.mk.injEq] at h
        have hv' : isValidName n = true := by
          revert hv
          cases isValidName n <;> simp
        exact ⟨hv', hmem, h.1.symm, h.2.symm⟩
  · rintro ⟨hv, hmem, rfl, rfl⟩
    rw [if_neg (by simp [hv]), if_neg hmem]

/-- Claimed namespaces are never removed: any sequence of further claims
preserves membership in the claim set. -/
theorem mem_namespaces_applyClaims (r : Registries) (names : List String)
    (ns : Namespace) (h : ns ∈ r.namespaces) :
    ns ∈ (r.applyClaims names).namespaces := by
  induction names generalizing r with
  | nil => exact h
  | cons n rest ih =>
    have hstep : r.applyClaims (n :: rest) =
        (match r.claimNamespace n with
          | .ok (_, r') => r'
          | .error _ => r).applyClaims rest := rfl
    rw [hstep]
    cases hcn : r.claimNamespace n with
    | error e => exact ih r h
    | ok p =>
      obtain ⟨ns', r'⟩ := p
      obtain ⟨-, -, -, rfl⟩ := (claimNamespace_ok_iff r n ns' r').mp hcn
      exact ih _ (List.mem_cons_of_mem _ h)

/-- **C7**.  After `claim_namespace(name)` succeeds, every later claim of the
same name — after any further sequence of claims — fails with
`NamespaceAlreadyClaimed`; and a name not matching `[a-z0-9-]+` always fails
with `IllegalName`, leaving the claim set unchanged (so it is never added). -/
theorem c7_claim_namespace_at_most_once (r : Registries) (name : String)
    (ns : Namespace) (r' : Registries) (later : List String)
    (s : Registries) (bad : String)
    (hclaim : r.claimNamespace name = .ok (ns, r'))
    (hbad : isValidName bad = false) :
    (r'.applyClaims later).claimNamespace name =
      .error (.namespaceAlreadyClaimed ⟨name⟩) ∧
    s.claimNamespace bad = .error (.illegalName bad) ∧
    s.applyClaims [bad] = s := by
  obtain ⟨hvalid, -, -, rfl⟩ := (claimNamespace_ok_iff r name ns r').mp hclaim
  refine ⟨?_, ?_, ?_⟩
  · have hmem : (⟨name⟩ : Namespace) ∈
        ((⟨⟨name⟩ :: r.namespaces⟩ : Registries).applyClaims later).namespaces :=
      mem_namespaces_applyClaims _ later _ (List.mem_cons_self _ _)
    unfold Registries.claimNamespace
    rw [if_neg (by simp [hvalid]), if_pos hmem]
  · unfold Registries.claimNamespace
    rw [if_pos (by simp [hbad])]
  · have hstep : s.applyClaims [bad] =
        (match s.claimNamespace bad with
          | .ok (_, r') => r'
          | .error _ => s).applyClaims [] := rfl
    rw [hstep]
    unfold Registries.claimNamespace
    rw [if_pos (by simp [hbad])]
    rfl

/-- Closed instance of `c7_claim_namespace_at_most_once`: claim `"std"` from a
fresh `Registries`, claim `"foo"` afterwards, then re-claiming `"std"` fails
with `NamespaceAlreadyClaimed`; claiming `"B@D"` fails with `IllegalName` and
leaves the fresh state unchanged. -/
theorem c7_claim_namespace_at_most_once_witness :
    ((⟨[⟨"std"⟩]⟩ : Registries).applyClaims ["foo"]).claimNamespace "std" =
      .error (.namespaceAlreadyClaimed ⟨"std"⟩) ∧
    (⟨[]⟩ : Registries).claimNamespace "B@D" = .error (.illegalName "B@D") ∧
    (⟨[]⟩ : Registries).applyClaims ["B@D"] = ⟨[]⟩ :=
  c7_claim_namespace_at_most_once ⟨[]⟩ "std" ⟨"std"⟩ ⟨[⟨"std"⟩]⟩ ["foo"]
    ⟨[]⟩ "B@D" rfl (by decide)

/-! ## Claim C3: interpolation on placeholder cycles -/

/-- If a context maps key `k` to a template string whose first fragment is the
placeholder `${k}` again, then interpolating any fragment list that starts
with `${k}` exhausts every recursion depth: the source's unbounded recursion
never returns. -/
theorem interpolate_self_cycle_diverges (ctx : Context) (k : String)
    (ts : TemplateString) (hget : ctx.get k = some (.template ts))
    (hhead : ts.frags.head? = some (.template k)) :
    ∀ fuel rest, interpolateF fuel ctx (.template k :: rest) =
      .error .outOfFuel := by
  intro fuel
  induction fuel with
  | zero => intro rest; rfl
  | succ n ih =>
    intro rest
    obtain ⟨tl, htl⟩ : ∃ tl, ts.frags = .template k :: tl := by
      cases hf : ts.frags with
      | nil => rw [hf] at hhead; simp at hhead
      | cons a b =>
        rw [hf] at hhead
        simp only [List.head?_cons, Option.some.injEq] at hhead
        exact ⟨b, by rw [hhead]⟩
    simp only [interpolateF, hget, htl, ih tl]

/-- The C3 failing input: a run whose extra `"a"` is the template string
`"${a}"` (a self-cycle), taken from the claim's own example. -/
def cycleCtx : Context :=
  ⟨⟨0, ⟨0⟩, ⟨0⟩⟩,
   ⟨"r1", "t", [("a", ContextValue.template ⟨[Fragment.template "a"]⟩)]⟩⟩

/-- **C3** (code_bug evidence).  On the self-cycle `extra["a"] = "${a}"`, the
source's `interpolate` of `"${a}"` neither returns `Interpolation("a")` nor
any other result: the embedding runs out of fuel at every recursion depth,
i.e. the unbounded recursion of `interpolate`/`to_prim` loops forever instead
of failing with `Interpolation(key)` as the claim requires. -/
theorem c3_interpolate_cycle_diverges :
    InterpolateDiverges cycleCtx [Fragment.template "a"] ∧
    ∀ fuel key, interpolateF fuel cycleCtx [Fragment.template "a"] ≠
      .error (.interpolation key) := by
  have hdiv : InterpolateDiverges cycleCtx [Fragment.template "a"] := by
    intro fuel
    exact interpolate_self_cycle_diverges cycleCtx "a"
      ⟨[Fragment.template "a"]⟩ rfl rfl fuel []
  refine ⟨hdiv, fun fuel key h => ?_⟩
  rw [hdiv fuel] at h
  exact absurd (Except.error.injEq _ _ ▸ h) (by simp)

/-! ## Claim C5: which keys interpolation can fail on

`Reaches ctx frags k` says the placeholder key `k` is transitively referenced
by `frags`: it appears as a placeholder in `frags` itself, or in the fragments
of a template-string value of a key reached this way. -/

inductive Reaches (ctx : Context) : List Fragment → String → Prop where
  | here {frags : List Fragment} {k : String}
      (hmem : Fragment.template k ∈ frags) : Reaches ctx frags k
  | deeper {frags : List Fragment} {k k' : String} {ts : TemplateString}
      (hmem : Fragment.template k ∈ frags)
      (hget : ctx.get k = some (.template ts))
      (hrec : Reaches ctx ts.frags k') : Reaches ctx frags k'

/-- Reachability is monotone in the fragment list. -/
theorem Reaches.cons {ctx : Context} {f : Fragment} {rest : List Fragment}
    {k : String} (h : Reaches ctx rest k) : Reaches ctx (f :: rest) k := by
  cases h with
  | here hmem => exact .here (List.mem_cons_of_mem _ hmem)
  | deeper hmem hget hrec => exact .deeper (List.mem_cons_of_mem _ hmem) hget hrec

/-- An `Interpolation(key)` error always names a transitively referenced key
that the context cannot resolve. -/
theorem interpolation_error_reaches (ctx : Context) :
    ∀ fuel frags k, interpolateF fuel ctx frags = .error (.interpolation k) →
      Reaches ctx frags k ∧ ctx.get k = none := by
  intro fuel
  induction fuel with
  | zero =>
    intro frags k h
    cases frags with
    | nil => simp [interpolateF] at h
    | cons f rest => simp [interpolateF] at h
  | succ n ihF =>
    intro frags k h
    cases frags with
    | nil => simp [interpolateF] at h
    | cons f rest =>
      cases f with
      | literal l =>
        simp only [interpolateF] at h
        cases he : interpolateF n ctx rest with
        | error e =>
          rw [he] at h
          simp only [Except.map] at h
          cases h
          obtain ⟨hr, hn⟩ := ihF rest k he
          exact ⟨hr.cons, hn⟩
        | ok s => rw [he] at h; simp [Except.map] at h
      | template k' =>
        simp only [interpolateF] at h
        cases hg : ctx.get k' with
        | none =>
          rw [hg] at h
          simp only [Except.error.injEq, InterpError.interpolation.injEq] at h
          subst h
          exact ⟨.here (List.mem_cons_self _ _), hg⟩
        | some v =>
          rw [hg] at h
          cases v with
          | prim p =>
            simp only at h
            cases he : interpolateF n ctx rest with
            | error e =>
              rw [he] at h
              simp only [Except.map] at h
              cases h
              obtain ⟨hr, hn⟩ := ihF rest k he
              exact ⟨hr.cons, hn⟩
            | ok s => rw [he] at h; simp [Except.map] at h
          | template ts =>
            simp only at h
            cases hsub : interpolateF n ctx ts.frags with
            | error e =>
              rw [hsub] at h
              simp only [Except.error.injEq] at h
              subst h
              obtain ⟨hr, hn⟩ := ihF ts.frags k hsub
              exact ⟨.deeper (List.mem_cons_self _ _) hg hr, hn⟩
            | ok sub =>
              rw [hsub] at h
              simp only at h
              cases he : interpolateF n ctx rest with
              | error e =>
                rw [he] at h
                simp only [Except.map] at h
                cases h
                obtain ⟨hr, hn⟩ := ihF rest k he
                exact ⟨hr.cons, hn⟩
              | ok s => rw [he] at h; simp [Except.map] at h

/-- When interpolation succeeds, every placeholder of the fragment list
resolved, and each template-string value it hit interpolated successfully at
some smaller depth. -/
theorem interpolation_ok_mem (ctx : Context) :
    ∀ fuel frags s, interpolateF fuel ctx frags = .ok s →
      ∀ k, Fragment.template k ∈ frags →
        ∃ v, ctx.get k = some v ∧
          ∀ ts, v = .template ts → ∃ n s', interpolateF n ctx ts.frags = .ok s' := by
  intro fuel
  induction fuel with
  | zero =>
    intro frags s h k hmem
    cases frags with
    | nil => simp at hmem
    | cons f rest => simp [interpolateF] at h
  | succ n ihF =>
    intro frags s h k hmem
    cases frags with
    | nil => simp at hmem
    | cons f rest =>
      cases f with
      | literal l =>
        simp only [interpolateF] at h
        cases he : interpolateF n ctx rest with
        | error e => rw [he] at h; simp [Except.map] at h
        | ok s' =>
          rcases List.mem_cons.mp hmem with hk | hk
          · exact absurd hk (by simp)
          · exact ihF rest s' he k hk
      | template k' =>
        simp only [interpolateF] at h
        cases hg : ctx.get k' with
        | none => rw [hg] at h; simp at h
        | some v =>
          rw [hg] at h
          cases v with
          | prim p =>
            simp only at h
            cases he : interpolateF n ctx rest with
            | error e => rw [he] at h; simp [Except.map] at h
            | ok s' =>
              rcases List.mem_cons.mp hmem with hk | hk
              · cases hk
                exact ⟨.prim p, hg, fun ts hts => by cases hts⟩
              · exact ihF rest s' he k hk
          | template ts =>
            simp only at h
            cases hsub : interpolateF n ctx ts.frags with
            | error e => rw [hsub] at h; simp at h
            | ok sub =>
              rw [hsub] at h
              simp only at h
              cases he : interpolateF n ctx rest with
              | error e => rw [he] at h; simp [Except.map] at h
              | ok s' =>
                rcases List.mem_cons.mp hmem with hk | hk
                · cases hk
                  refine ⟨.template ts, hg, fun ts' hts => ?_⟩
                  cases hts
                  exact ⟨n, sub, hsub⟩
                · exact ihF rest s' he k hk

/-- When interpolation succeeds, every transitively referenced key resolves. -/
theorem interpolation_ok_reaches (ctx : Context) {frags : List Fragment}
    {k : String} (hr : Reaches ctx frags k) :
    ∀ fuel s, interpolateF fuel ctx frags = .ok s → ∃ v, ctx.get k = some v := by
  induction hr with
  | here hmem =>
    intro fuel s h
    obtain ⟨v, hv, -⟩ := interpolation_ok_mem ctx fuel _ s h _ hmem
    exact ⟨v, hv⟩
  | deeper hmem hget hrec ih =>
    intro fuel s h
    obtain ⟨v, hv, hts⟩ := interpolation_ok_mem ctx fuel _ s h _ hmem
    rw [hget] at hv
    cases hv
    obtain ⟨n, s', hok⟩ := hts _ rfl
    exact ih n s' hok

/-- Concatenation of a list of string pieces, in order. -/
def concatParts : List String → String
  | [] => ""
  | p :: rest => p ++ concatParts rest

/-- A successful interpolation is the in-order concatenation of one piece per
fragment: a literal contributes itself, and a placeholder contributes the
display string of the primitive its value resolves to through
`ContextValue::to_prim`. -/
theorem interpolation_ok_concat (ctx : Context) :
    ∀ fuel frags s, interpolateF fuel ctx frags = .ok s →
      ∃ parts : List String, s = concatParts parts ∧
        parts.length = frags.length ∧
        (∀ (i : Nat) (l : String), frags[i]? = some (.literal l) →
          parts[i]? = some l) ∧
        (∀ (i : Nat) (k : String), frags[i]? = some (.template k) →
          ∃ v p, ctx.get k = some v ∧
            (∃ n, ContextValue.toPrim n ctx v = .ok p) ∧
            parts[i]? = some p.asString) := by
  intro fuel
  induction fuel with
  | zero =>
    intro frags s h
    cases frags with
    | nil =>
      simp only [interpolateF, Except.ok.injEq] at h
      subst h
      exact ⟨[], rfl, rfl, by simp, by simp⟩
    | cons f rest => simp [interpolateF] at h
  | succ n ihF =>
    intro frags s h
    cases frags with
    | nil =>
      simp only [interpolateF, Except.ok.injEq] at h
      subst h
      exact ⟨[], rfl, rfl, by simp, by simp⟩
    | cons f rest =>
      cases f with
      | literal l =>
        simp only [interpolateF] at h
        cases he : interpolateF n ctx rest with
        | error e => rw [he] at h; simp [Except.map] at h
        | ok s' =>
          rw [he] at h
          simp only [Except.map, Except.ok.injEq] at h
          subst h
          obtain ⟨parts, hs, hlen, hlit, htmp⟩ := ihF rest s' he
          refine ⟨l :: parts, by rw [hs]; rfl, by simp [hlen], ?_, ?_⟩
          · intro i l' hi
            cases i with
            | zero =>
              simp only [List.getElem?_cons_zero, Option.some.injEq,
                Fragment.literal.injEq] at hi
              subst hi
              simp
            | succ j =>
              simp only [List.getElem?_cons_succ] at hi ⊢
              exact hlit j l' hi
          · intro i k' hi
            cases i with
            | zero => simp at hi
            | succ j =>
              simp only [List.getElem?_cons_succ] at hi ⊢
              exact htmp j k' hi
      | template k =>
        simp only [interpolateF] at h
        cases hg : ctx.get k with
        | none => rw [hg] at h; simp at h
        | some v =>
          rw [hg] at h
          cases v with
          | prim p =>
            simp only at h
            cases he : interpolateF n ctx rest with
            | error e => rw [he] at h; simp [Except.map] at h
            | ok s' =>
              rw [he] at h
              simp only [Except.map, Except.ok.injEq] at h
              subst h
              obtain ⟨parts, hs, hlen, hlit, htmp⟩ := ihF rest s' he
              refine ⟨p.asString :: parts, by rw [hs]; rfl, by simp [hlen], ?_, ?_⟩
              · intro i l' hi
                cases i with
                | zero => simp at hi
                | succ j =>
                  simp only [List.getElem?_cons_succ] at hi ⊢
                  exact hlit j l' hi
              · intro i k' hi
                cases i with
                | zero =>
                  simp only [List.getElem?_cons_zero, Option.some.injEq,
                    Fragment.template.injEq] at hi
                  subst hi
                  exact ⟨.prim p, p, hg, ⟨0, rfl⟩, by simp⟩
                | succ j =>
                  simp only [List.getElem?_cons_succ] at hi ⊢
                  exact htmp j k' hi
          | template ts =>
            simp only at h
            cases hsub : interpolateF n ctx ts.frags with
            | error e => rw [hsub] at h; simp at h
            | ok sub =>
              rw [hsub] at h
              simp only at h
              cases he : interpolateF n ctx rest with
              | error e => rw [he] at h; simp [Except.map] at h
              | ok s' =>
                rw [he] at h
                simp only [Except.map, Except.ok.injEq] at h
                subst h
                obtain ⟨parts, hs, hlen, hlit, htmp⟩ := ihF rest s' he
                refine ⟨sub :: parts, by rw [hs]; rfl, by simp [hlen], ?_, ?_⟩
                · intro i l' hi
                  cases i with
                  | zero => simp at hi
                  | succ j =>
                    simp only [List.getElem?_cons_succ] at hi ⊢
                    exact hlit j l' hi
                · intro i k' hi
                  cases i with
                  | zero =>
                    simp only [List.getElem?_cons_zero, Option.some.injEq,
                      Fragment.template.injEq] at hi
                    subst hi
                    refine ⟨.template ts, .str sub, hg, ⟨n, ?_⟩, by simp [Prim.asString]⟩
                    show (interpolateF n ctx ts.frags).map Prim.str = .ok (.str sub)
                    rw [hsub]
                    rfl
                  | succ j =>
                    simp only [List.getElem?_cons_succ] at hi ⊢
                    exact htmp j k' hi

/-- **C5** (amended: the counterexample only forces a termination proviso).
Provided the interpolation walk completes (the given recursion depth is not
exhausted, which on a placeholder cycle happens at every depth — see
`c5_counterexample`): `interpolate` returns `Err(Interpolation(k))` for some
`k` iff some transitively referenced key is neither a built-in nor in
`run.extra`; when every referenced key resolves it succeeds, and the
successful result is the concatenation of the literal fragments and the
display strings of the resolved values (each placeholder's value taken to a
primitive by `to_prim`); in particular, for every context with
`extra["x"] = Prim(String("v"))`, interpolating `"${x}"` yields `"v"`. -/
theorem c5_interpolation_error_characterization (ctx : Context)
    (frags : List Fragment) (fuel : Nat)
    (hterm : interpolateF fuel ctx frags ≠ .error .outOfFuel) :
    ((∃ k, interpolateF fuel ctx frags = .error (.interpolation k)) ↔
      (∃ k, Reaches ctx frags k ∧ ctx.get k = none)) ∧
    ((∀ k, Reaches ctx frags k → ctx.get k ≠ none) →
      ∃ s, interpolateF fuel ctx frags = .ok s) ∧
    (∀ s, interpolateF fuel ctx frags = .ok s →
      ∃ parts : List String, s = concatParts parts ∧
        parts.length = frags.length ∧
        (∀ (i : Nat) (l : String), frags[i]? = some (.literal l) →
          parts[i]? = some l) ∧
        (∀ (i : Nat) (k : String), frags[i]? = some (.template k) →
          ∃ v p, ctx.get k = some v ∧
            (∃ n, ContextValue.toPrim n ctx v = .ok p) ∧
            parts[i]? = some p.asString)) ∧
    (∀ (ctx' : Context) (fuel' : Nat),
      ctx'.run.extra.lookup "x" = some (.prim (.str "v")) →
      interpolateF (fuel' + 1) ctx' [.template "x"] = .ok "v") := by
  refine ⟨⟨?_, ?_⟩, ?_, ?_, ?_⟩
  · rintro ⟨k, hk⟩
    exact ⟨k, interpolation_error_reaches ctx fuel frags k hk⟩
  · rintro ⟨k, hr, hn⟩
    cases hres : interpolateF fuel ctx frags with
    | ok s =>
      obtain ⟨v, hv⟩ := interpolation_ok_reaches ctx hr fuel s hres
      rw [hv] at hn
      cases hn
    | error e =>
      cases e with
      | interpolation k' => exact ⟨k', rfl⟩
      | outOfFuel => exact absurd hres hterm
  · intro hres
    cases hr : interpolateF fuel ctx frags with
    | ok s => exact ⟨s, rfl⟩
    | error e =>
      cases e with
      | interpolation k =>
        obtain ⟨hreach, hnone⟩ := interpolation_error_reaches ctx fuel frags k hr
        exact absurd hnone (hres k hreach)
      | outOfFuel => exact absurd hr hterm
  · intro s hs
    exact interpolation_ok_concat ctx fuel frags s hs
  · intro ctx' fuel' hx
    have hget : ctx'.get "x" = some (.prim (.str "v")) := by
      simp [Context.get, hx]
    simp [interpolateF, hget, Prim.asString, Except.map]

/-- The C5 counterexample context: `extra["a"] = "${a}-...-${missing}"` — the
key `"a"` enters a self-cycle before the absent key `"missing"` is ever
looked up. -/
def cycleMissingCtx : Context :=
  ⟨⟨0, ⟨0⟩, ⟨0⟩⟩,
   ⟨"r1", "t",
    [("a", ContextValue.template
        ⟨[Fragment.template "a", Fragment.template "missing"]⟩)]⟩⟩

/-- **C5** (counterexample to the claim as stated).  Interpolating `"${a}"`
in `cycleMissingCtx` transitively references the key `"missing"`, which is
neither built-in nor in `run.extra` — yet `interpolate` never returns
`Err(Interpolation(_))`: the source recursion diverges (out of fuel at every
depth), so the claimed "if and only if" fails without a termination
proviso. -/
theorem c5_counterexample :
    (Reaches cycleMissingCtx [Fragment.template "a"] "missing" ∧
      cycleMissingCtx.get "missing" = none) ∧
    InterpolateDiverges cycleMissingCtx [Fragment.template "a"] := by
  refine ⟨⟨?_, by decide⟩, ?_⟩
  · exact @Reaches.deeper cycleMissingCtx [Fragment.template "a"] "a" "missing"
      ⟨[Fragment.template "a", Fragment.template "missing"]⟩
      (List.mem_cons_self _ _) (by decide)
      (.here (by simp))
  · intro fuel
    exact interpolate_self_cycle_diverges cycleMissingCtx "a"
      ⟨[Fragment.template "a", Fragment.template "missing"]⟩ (by decide) rfl fuel []

/-- The concrete terminating context used to witness
`c5_interpolation_error_characterization`. -/
def xvCtx : Context :=
  ⟨⟨0, ⟨0⟩, ⟨0⟩⟩, ⟨"r1", "t", [("x", ContextValue.prim (Prim.str "v"))]⟩⟩

/-- Closed instance of `c5_interpolation_error_characterization` at `xvCtx`,
`"${x}"`, depth 1, where interpolation terminates. -/
theorem c5_interpolation_error_characterization_witness :
    ((∃ k, interpolateF 1 xvCtx [Fragment.template "x"] =
        .error (.interpolation k)) ↔
      (∃ k, Reaches xvCtx [Fragment.template "x"] k ∧ xvCtx.get k = none)) ∧
    ((∀ k, Reaches xvCtx [Fragment.template "x"] k → xvCtx.get k ≠ none) →
      ∃ s, interpolateF 1 xvCtx [Fragment.template "x"] = .ok s) ∧
    (∀ s, interpolateF 1 xvCtx [Fragment.template "x"] = .ok s →
      ∃ parts : List String, s = concatParts parts ∧
        parts.length = [Fragment.template "x"].length ∧
        (∀ (i : Nat) (l : String),
          [Fragment.template "x"][i]? = some (.literal l) →
          parts[i]? = some l) ∧
        (∀ (i : Nat) (k : String),
          [Fragment.template "x"][i]? = some (.template k) →
          ∃ v p, xvCtx.get k = some v ∧
            (∃ n, ContextValue.toPrim n xvCtx v = .ok p) ∧
            parts[i]? = some p.asString)) ∧
    (∀ (ctx' : Context) (fuel' : Nat),
      ctx'.run.extra.lookup "x" = some (.prim (.str "v")) →
      interpolateF (fuel' + 1) ctx' [.template "x"] = .ok "v") :=
  c5_interpolation_error_characterization xvCtx [Fragment.template "x"] 1
    (by
      rw [show interpolateF 1 xvCtx [Fragment.template "x"] = Except.ok "v" by rfl]
      simp)

/-! ## Claim C2: `ContextGenerator` (`src/processing/context/gen.rs`) -/

/-- The mutable state of `ContextGenerator`.  The boxed `SiteGenerator` is a
finite single-pass pull iterator; its remaining items are modelled as a
list consumed from the front. -/
structure GenState where
  sites : List Site
  currSite : Option Site
  siteSampleSize : Option Nat
  currentSiteCount : Nat
  runs : List RunConfig
  currentRun : Nat
deriving DecidableEq

/-- `ContextGenerator::new`. -/
def ContextGenerator.new (sites : List Site) (runs : List RunConfig)
    (siteSampleSize : Option Nat) : GenState :=
  ⟨sites, none, siteSampleSize, 0, runs, 0⟩

/-- Tail of `ContextGenerator::next`: clone `runs[current_run]` (the source
indexes unconditionally and panics on an empty run list — modelled as `none`,
a branch unreachable for the nonempty run lists the claims quantify over),
advance `current_run` and `current_site_count`, and emit the context. -/
def GenState.emit (g : GenState) (s : Site) : Option (Context × GenState) :=
  match g.runs.get? g.currentRun with
  | none => none
  | some run =>
    some (⟨s, run⟩,
      { g with currentRun := g.currentRun + 1,
               currentSiteCount := g.currentSiteCount + 1 })

/-- Middle of `ContextGenerator::next` (after the reset): pull the next site
if none is current — ending the iteration when the site generator is
exhausted — then emit. -/
def GenState.pull (g1 : GenState) : Option (Context × GenState) :=
  match g1.currSite with
  | some s => g1.emit s
  | none =>
    match g1.sites with
    | [] => none
    | s :: rest => GenState.emit { g1 with currSite := some s, sites := rest } s

/-- Body of `ContextGenerator::next` after the sample-size check: when
`current_run` has run past the run list, reset it and clear `curr_site`,
then pull and emit. -/
def GenState.nextCore (g : GenState) : Option (Context × GenState) :=
  GenState.pull
    (if g.currentRun ≥ g.runs.length then
      { g with currentRun := 0, currSite := none }
    else g)

/-- `ContextGenerator::next`: `None` as soon as `current_site_count` has
reached the sample size, otherwise the core step. -/
def GenState.next (g : GenState) : Option (Context × GenState) :=
  match g.siteSampleSize with
  | some n => if g.currentSiteCount ≥ n then none else g.nextCore
  | none => g.nextCore

/-- Collects up to `fuel` items from the iterator. -/
def genRun : Nat → GenState → List Context
  | 0, _ => []
  | fuel + 1, g =>
    match g.next with
    | none => []
    | some (c, g') => c :: genRun fuel g'

/-- The cartesian-product order the spec prescribes: sites outer (in
generator order), runs inner (in list order). -/
def contextProduct : List Site → List RunConfig → List Context
  | [], _ => []
  | s :: rest, runs => runs.map (fun r => ⟨s, r⟩) ++ contextProduct rest runs

/-- Erases the sample size from a generator state. -/
def GenState.uncap (g : GenState) : GenState :=
  { g with siteSampleSize := none }

/-- The core step ignores the sample size and the emission count other than
incrementing the count: it commutes with erasing the cap, and a produced
state has the same cap, the same runs, and a count one higher. -/
theorem nextCore_uncap (g : GenState) :
    g.uncap.nextCore = g.nextCore.map (fun p => (p.1, p.2.uncap)) ∧
    ∀ c g', g.nextCore = some (c, g') →
      g'.siteSampleSize = g.siteSampleSize ∧
      g'.currentSiteCount = g.currentSiteCount + 1 := by
  obtain ⟨sites, currSite, cap, cnt, runs, k⟩ := g
  unfold GenState.nextCore GenState.pull GenState.uncap GenState.emit
  by_cases hk : k ≥ runs.length <;>
    simp only [hk, if_true, if_false, ite_true, ite_false] <;>
    cases currSite <;>
    cases sites <;>
    cases hg : runs.get? 0 <;>
    cases hg' : runs.get? k <;>
    simp_all

/-- A capped generator run is the `take` of the corresponding uncapped run:
the remaining budget is the sample size minus the emissions so far. -/
theorem genRun_capped (n : Nat) :
    ∀ fuel (g : GenState), g.siteSampleSize = some n →
      genRun fuel g = (genRun fuel g.uncap).take (n - g.currentSiteCount) := by
  intro fuel
  induction fuel with
  | zero => intro g _; simp [genRun]
  | succ fuel ih =>
    intro g hcap
    show (match g.next with
      | none => []
      | some (c, g') => c :: genRun fuel g') =
      (match g.uncap.next with
        | none => []
        | some (c, g') => c :: genRun fuel g').take (n - g.currentSiteCount)
    have hunext : g.uncap.next = g.uncap.nextCore := rfl
    rw [hunext, (nextCore_uncap g).1]
    by_cases hc : g.currentSiteCount ≥ n
    · have : g.next = none := by
        unfold GenState.next
        rw [hcap]
        simp [hc]
      rw [this]
      have : n - g.currentSiteCount = 0 := by omega
      rw [this]
      cases g.nextCore <;> simp
    · have hnx : g.next = g.nextCore := by
        unfold GenState.next
        rw [hcap]
        simp [hc]
      rw [hnx]
      cases hcore : g.nextCore with
      | none => simp
      | some p =>
        obtain ⟨c, g'⟩ := p
        obtain ⟨hcap', hcnt'⟩ := (nextCore_uncap g).2 c g' hcore
        have hrem : n - g.currentSiteCount = (n - g'.currentSiteCount) + 1 := by
          omega
        simp only [Option.map, hrem, List.take_succ_cons]
        rw [ih g' (hcap'.trans hcap)]

/-- An uncapped generator over a nonempty run list emits exactly the
sites-outer/runs-inner cartesian product, whatever the emission counter —
stated jointly for the two loop shapes: at a site boundary (no current site,
`current_run = 0`) and mid-site (current site `s`, `current_run = k ≥ 1`). -/
theorem genRun_product (r0 : RunConfig) (rs : List RunConfig) :
    ∀ fuel,
      (∀ (sites : List Site) (c : Nat),
        sites.length * (rs.length + 1) ≤ fuel →
        genRun fuel ⟨sites, none, none, c, r0 :: rs, 0⟩ =
          contextProduct sites (r0 :: rs)) ∧
      (∀ (rest : List Site) (s : Site) (c k : Nat),
        1 ≤ k → k ≤ rs.length + 1 →
        (rs.length + 1 - k) + rest.length * (rs.length + 1) ≤ fuel →
        genRun fuel ⟨rest, some s, none, c, r0 :: rs, k⟩ =
          ((r0 :: rs).drop k).map (fun r => ⟨s, r⟩) ++
            contextProduct rest (r0 :: rs)) := by
  intro fuel
  induction fuel with
  | zero =>
    constructor
    · intro sites c h
      have hsites : sites = [] := by
        cases sites with
        | nil => rfl
        | cons a b =>
          exfalso
          have : 0 < (b.length + 1) * (rs.length + 1) :=
            Nat.mul_pos (by omega) (by omega)
          simp only [List.length_cons] at h
          omega
      subst hsites
      rfl
    · intro rest s c k h1 hk h
      have hrest : rest = [] := by
        cases rest with
        | nil => rfl
        | cons a b =>
          exfalso
          have : 0 < (b.length + 1) * (rs.length + 1) :=
            Nat.mul_pos (by omega) (by omega)
          simp only [List.length_cons] at h
          omega
      have hkR : k = rs.length + 1 := by omega
      subst hrest hkR
      show ([] : List Context) =
        ((r0 :: rs).drop (rs.length + 1)).map (fun r => ⟨s, r⟩) ++
          contextProduct [] (r0 :: rs)
      rw [show (r0 :: rs).drop (rs.length + 1) = [] from
        List.drop_length (r0 :: rs) ▸ (by simp : (r0 :: rs).length = rs.length + 1) ▸ rfl]
      rfl
  | succ fuel ih =>
    obtain ⟨ihB, ihI⟩ := ih
    have hboundary :
        ∀ (sites : List Site) (c : Nat),
          sites.length * (rs.length + 1) ≤ fuel + 1 →
          genRun (fuel + 1) ⟨sites, none, none, c, r0 :: rs, 0⟩ =
            contextProduct sites (r0 :: rs) := by
      intro sites c h
      cases sites with
      | nil =>
        have hnext :
            GenState.next ⟨[], none, none, c, r0 :: rs, 0⟩ = none := by
          show GenState.nextCore _ = none
          unfold GenState.nextCore
          rw [if_neg (by simp)]
          rfl
        show (match GenState.next ⟨[], none, none, c, r0 :: rs, 0⟩ with
          | none => []
          | some (c', g') => c' :: genRun fuel g') = contextProduct [] (r0 :: rs)
        simp only [hnext]
        rfl
      | cons s rest =>
        have hnext :
            GenState.next ⟨s :: rest, none, none, c, r0 :: rs, 0⟩ =
              some (⟨s, r0⟩, ⟨rest, some s, none, c + 1, r0 :: rs, 1⟩) := by
          show GenState.nextCore _ = _
          unfold GenState.nextCore
          rw [if_neg (by simp)]
          rfl
        show (match GenState.next ⟨s :: rest, none, none, c, r0 :: rs, 0⟩ with
          | none => []
          | some (c', g') => c' :: genRun fuel g') = contextProduct (s :: rest) (r0 :: rs)
        simp only [hnext]
        have hbound : (rs.length + 1 - 1) + rest.length * (rs.length + 1) ≤ fuel := by
          simp only [List.length_cons] at h
          have : (rest.length + 1) * (rs.length + 1) =
              rest.length * (rs.length + 1) + (rs.length + 1) := by ring
          omega
        rw [ihI rest s (c + 1) 1 (by omega) (by omega) hbound]
        show Context.mk s r0 :: (((r0 :: rs).drop 1).map (fun r => ⟨s, r⟩) ++
            contextProduct rest (r0 :: rs)) =
          (r0 :: rs).map (fun r => ⟨s, r⟩) ++ contextProduct rest (r0 :: rs)
        rfl
    refine ⟨hboundary, ?_⟩
    intro rest s c k h1 hk h
    rcases Nat.lt_or_ge k (rs.length + 1) with hlt | hge
    · obtain ⟨rk, hrk⟩ : ∃ rk, (r0 :: rs).get? k = some rk :=
        ⟨_, List.get?_eq_get (by simpa using hlt)⟩
      have hnext :
          GenState.next ⟨rest, some s, none, c, r0 :: rs, k⟩ =
            some (⟨s, rk⟩, ⟨rest, some s, none, c + 1, r0 :: rs, k + 1⟩) := by
        show GenState.nextCore _ = _
        unfold GenState.nextCore
        rw [if_neg (by simp only [List.length_cons]; omega)]
        show GenState.emit _ s = _
        unfold GenState.emit
        rw [show (⟨rest, some s, none, c, r0 :: rs, k⟩ : GenState).runs.get?
            (⟨rest, some s, none, c, r0 :: rs, k⟩ : GenState).currentRun = some rk from hrk]
      show (match GenState.next ⟨rest, some s, none, c, r0 :: rs, k⟩ with
        | none => []
        | some (c', g') => c' :: genRun fuel g') = _
      simp only [hnext]
      have hbound : (rs.length + 1 - (k + 1)) + rest.length * (rs.length + 1) ≤ fuel := by
        omega
      rw [ihI rest s (c + 1) (k + 1) (by omega) (by omega) hbound]
      have hdrop : (r0 :: rs).drop k = rk :: (r0 :: rs).drop (k + 1) := by
        have hklen : k < (r0 :: rs).length := by simpa using hlt
        rw [List.drop_eq_getElem_cons hklen]
        have : (r0 :: rs)[k] = rk := by
          have := List.getElem?_eq_getElem hklen
          rw [← List.get?_eq_getElem?] at this
          rw [hrk] at this
          exact (Option.some.injEq _ _ ▸ this.symm)
        rw [this]
      rw [hdrop]
      rfl
    · have hkR : k = rs.length + 1 := by omega
      subst hkR
      have hdropR : (r0 :: rs).drop (rs.length + 1) = [] := by
        have : (r0 :: rs).length = rs.length + 1 := by simp
        rw [← this, List.drop_length]
      cases rest with
      | nil =>
        have hnext :
            GenState.next ⟨[], some s, none, c, r0 :: rs, rs.length + 1⟩ = none := by
          show GenState.nextCore _ = none
          unfold GenState.nextCore
          rw [if_pos (by simp)]
          rfl
        show (match GenState.next ⟨[], some s, none, c, r0 :: rs, rs.length + 1⟩ with
          | none => []
          | some (c', g') => c' :: genRun fuel g') = _
        simp only [hnext]
        rw [hdropR]
        rfl
      | cons s' rest' =>
        have hnext :
            GenState.next ⟨s' :: rest', some s, none, c, r0 :: rs, rs.length + 1⟩ =
              some (⟨s', r0⟩, ⟨rest', some s', none, c + 1, r0 :: rs, 1⟩) := by
          show GenState.nextCore _ = _
          unfold GenState.nextCore
          rw [if_pos (by simp)]
          rfl
        show (match GenState.next
            ⟨s' :: rest', some s, none, c, r0 :: rs, rs.length + 1⟩ with
          | none => []
          | some (c', g') => c' :: genRun fuel g') = _
        simp only [hnext]
        have hbound :
            (rs.length + 1 - 1) + rest'.length * (rs.length + 1) ≤ fuel := by
          simp only [List.length_cons] at h
          have : (rest'.length + 1) * (rs.length + 1) =
              rest'.length * (rs.length + 1) + (rs.length + 1) := by ring
          omega
        rw [ihI rest' s' (c + 1) 1 (by omega) (by omega) hbound, hdropR]
        show Context.mk s' r0 :: (((r0 :: rs).drop 1).map (fun r => ⟨s', r⟩) ++
            contextProduct rest' (r0 :: rs)) =
          [] ++ ((r0 :: rs).map (fun r => ⟨s', r⟩) ++ contextProduct rest' (r0 :: rs))
        rfl

/-- The cartesian product has `|sites| * |runs|` items. -/
theorem contextProduct_length (sites : List Site) (runs : List RunConfig) :
    (contextProduct sites runs).length = sites.length * runs.length := by
  induction sites with
  | nil => simp [contextProduct]
  | cons s rest ih =>
    show (runs.map (fun r => Context.mk s r) ++ contextProduct rest runs).length =
      (rest.length + 1) * runs.length
    rw [List.length_append, List.length_map, ih]
    ring

/-- Item `i` of the cartesian product pairs site `i / |runs|` with run
`i % |runs|`. -/
theorem contextProduct_getElem (sites : List Site) (runs : List RunConfig)
    (hruns : runs ≠ []) :
    ∀ (i : Nat) (s : Site) (r : RunConfig),
      sites[i / runs.length]? = some s → runs[i % runs.length]? = some r →
      (contextProduct sites runs)[i]? = some ⟨s, r⟩ := by
  have hR : 0 < runs.length := List.length_pos.mpr hruns
  induction sites with
  | nil =>
    intro i s r hs _
    simp at hs
  | cons s0 rest ih =>
    intro i s r hs hr
    rw [show contextProduct (s0 :: rest) runs =
      runs.map (fun r => ⟨s0, r⟩) ++ contextProduct rest runs from rfl]
    by_cases hi : i < runs.length
    · have hdiv : i / runs.length = 0 := Nat.div_eq_of_lt hi
      have hmod : i % runs.length = i := Nat.mod_eq_of_lt hi
      rw [hdiv] at hs
      simp only [List.getElem?_cons_zero, Option.some.injEq] at hs
      rw [List.getElem?_append_left (by simpa using hi), List.getElem?_map]
      rw [hmod] at hr
      rw [hr, hs]
      rfl
    · have hle : runs.length ≤ i := Nat.le_of_not_lt hi
      have hij : i = (i - runs.length) + runs.length := by omega
      have hdiv : i / runs.length = (i - runs.length) / runs.length + 1 := by
        conv_lhs => rw [hij]
        rw [Nat.add_div_right _ hR]
      have hmod : i % runs.length = (i - runs.length) % runs.length := by
        conv_lhs => rw [hij]
        rw [Nat.add_mod_right]
      rw [List.getElem?_append_right (by simpa using hle)]
      rw [hdiv] at hs
      simp only [List.getElem?_cons_succ] at hs
      rw [hmod] at hr
      have := ih (i - runs.length) s r hs hr
      simpa using this

/-- **C2**.  Over a finite site list, a nonempty run list and an optional
sample cap, the generator enumerates exactly `min N (|sites| * |runs|)`
contexts (`|sites| * |runs|` without a cap), pairing item `i` with site
`i / |runs|` and run `i mod |runs|` (sites outer, runs inner); the `extra`
fuel shows enumeration has terminated by then — once the site iterator is
exhausted, running the iterator longer emits nothing more. -/
theorem c2_context_generator_enumeration (sites : List Site)
    (runs : List RunConfig) (cap : Option Nat) (extra : Nat)
    (hruns : runs ≠ []) :
    (genRun (sites.length * runs.length + extra)
        (ContextGenerator.new sites runs cap)).length =
      (match cap with
        | none => sites.length * runs.length
        | some n => min n (sites.length * runs.length)) ∧
    ∀ (i : Nat) (s : Site) (r : RunConfig),
      i < (match cap with
        | none => sites.length * runs.length
        | some n => min n (sites.length * runs.length)) →
      sites[i / runs.length]? = some s → runs[i % runs.length]? = some r →
      (genRun (sites.length * runs.length + extra)
          (ContextGenerator.new sites runs cap))[i]? = some ⟨s, r⟩ := by
  obtain ⟨r0, rs, rfl⟩ := List.exists_cons_of_ne_nil hruns
  have hlen : (r0 :: rs).length = rs.length + 1 := rfl
  have hfull :
      genRun (sites.length * (r0 :: rs).length + extra)
        ⟨sites, none, none, 0, r0 :: rs, 0⟩ =
      contextProduct sites (r0 :: rs) := by
    apply (genRun_product r0 rs (sites.length * (r0 :: rs).length + extra)).1
    rw [hlen]
    omega
  cases cap with
  | none =>
    constructor
    · show (genRun _ ⟨sites, none, none, 0, r0 :: rs, 0⟩).length = _
      rw [hfull, contextProduct_length]
    · intro i s r _ hs hr
      show (genRun _ ⟨sites, none, none, 0, r0 :: rs, 0⟩)[i]? = _
      rw [hfull]
      exact contextProduct_getElem sites (r0 :: rs) hruns i s r hs hr
  | some n =>
    have hcapped :
        genRun (sites.length * (r0 :: rs).length + extra)
          (ContextGenerator.new sites (r0 :: rs) (some n)) =
        (contextProduct sites (r0 :: rs)).take n := by
      have h1 := genRun_capped n (sites.length * (r0 :: rs).length + extra)
        (ContextGenerator.new sites (r0 :: rs) (some n)) rfl
      rw [h1]
      show (genRun _ ⟨sites, none, none, 0, r0 :: rs, 0⟩).take (n - 0) = _
      rw [hfull, Nat.sub_zero]
    constructor
    · rw [hcapped, List.length_take, contextProduct_length]
    · intro i s r hi hs hr
      have hi' : i < min n (sites.length * (r0 :: rs).length) := hi
      rw [hcapped]
      rw [List.getElem?_take_of_lt (by omega : i < n)]
      exact contextProduct_getElem sites (r0 :: rs) hruns i s r hs hr

/-- Closed instance of `c2_context_generator_enumeration`: 2 sites × 2 runs
capped at 3 yields 3 contexts, and item 2 pairs site `2 / 2 = 1` with run
`2 % 2 = 0`. -/
theorem c2_context_generator_enumeration_witness :
    (genRun 4 (ContextGenerator.new
        [⟨0, ⟨0⟩, ⟨0⟩⟩, ⟨1, ⟨0⟩, ⟨0⟩⟩]
        [⟨"r1", "t", []⟩, ⟨"r2", "t", []⟩] (some 3))).length = 3 ∧
    (genRun 4 (ContextGenerator.new
        [⟨0, ⟨0⟩, ⟨0⟩⟩, ⟨1, ⟨0⟩, ⟨0⟩⟩]
        [⟨"r1", "t", []⟩, ⟨"r2", "t", []⟩] (some 3)))[2]? =
      some ⟨⟨1, ⟨0⟩, ⟨0⟩⟩, ⟨"r1", "t", []⟩⟩ :=
  ⟨(c2_context_generator_enumeration
      [⟨0, ⟨0⟩, ⟨0⟩⟩, ⟨1, ⟨0⟩, ⟨0⟩⟩]
      [⟨"r1", "t", []⟩, ⟨"r2", "t", []⟩] (some 3) 0 (by simp)).1,
   (c2_context_generator_enumeration
      [⟨0, ⟨0⟩, ⟨0⟩⟩, ⟨1, ⟨0⟩, ⟨0⟩⟩]
      [⟨"r1", "t", []⟩, ⟨"r2", "t", []⟩] (some 3) 0 (by simp)).2
    2 ⟨1, ⟨0⟩, ⟨0⟩⟩ ⟨"r1", "t", []⟩ (by decide) rfl rfl⟩

/-! ## Identifiers and the seeded configuration decoders
(`src/registry/identifier.rs`, `src/registry/serialize.rs`,
`src/config/mod.rs`)

The snapshot's `src/config/mod.rs` builds its `ConfigSeed` out of a
`SiteSourceConfigSeed` that wraps a `ResourceSeed` (`ConfigSeedBuilder::build`),
but the `src/config/sites.rs` present in the tree is from an earlier revision
whose `SiteSourceConfigSeed` has no such field — the current `sites` visitor
itself is missing from the sources.  `ResourceSeed::deserialize` and
`PublicIdentifierSeed::deserialize` are present and embedded from the source;
only the `sites`-object visitor glue is modelled from the spec (see
`decodeSiteSource`). -/

/-- A character of the identifier classes of `RE_VALID_NAMESPACE_AND_ID`,
i.e. `[a-z0-9._-]`. -/
def validIdChar (c : Char) : Bool :=
  ('a' ≤ c && c ≤ 'z') || ('0' ≤ c && c ≤ '9') || c == '.' || c == '_' || c == '-'

/-- One nonempty run of `[a-z0-9._-]` characters. -/
def validIdPart (l : List Char) : Bool :=
  !l.isEmpty && l.all validIdChar

/-- Splits a character list at every `':'` (the behavior of
`str::split(':')` / `String.splitOn ":"`: always at least one part, empty
parts kept). -/
def splitOnColon : List Char → List (List Char)
  | [] => [[]]
  | ':' :: rest => [] :: splitOnColon rest
  | c :: rest =>
    match splitOnColon rest with
    | [] => [[c]]
    | part :: parts => (c :: part) :: parts

/-- The match of `RE_VALID_NAMESPACE_AND_ID`
(`^(?:(?<ns>[a-z0-9._-]+):)?(?<id>[a-z0-9._-]+)$`) on `s`: an optional
namespace group and the id group.  Since `':'` is outside the character
class, splitting at `':'` decomposes the string exactly as the regex does:
one part is a bare id, two parts are `ns:id`, anything else cannot match. -/
def parseNsId (s : String) : Option (Option String × String) :=
  match splitOnColon s.data with
  | [id] => if validIdPart id then some (none, String.mk id) else none
  | [ns, id] =>
    if validIdPart ns && validIdPart id then
      some (some (String.mk ns), String.mk id)
    else none
  | _ => none

/-- `PublicIdentifier` (`src/registry/identifier.rs`): a freely constructed
`(namespace, id)` pair (the source field `namespace` is `ns` here — the
word is reserved in Lean). -/
structure PublicIdentifier where
  ns : String
  id : String
deriving DecidableEq

/-- `PublicIdentifierSeed::deserialize`: deserializes a string (any other
JSON value is a type error), matches it against
`RE_VALID_NAMESPACE_AND_ID`, and defaults the namespace to the seed's
`default_namespace` when the `ns` group is absent. -/
def PublicIdentifierSeed.deserialize (defaultNamespace : String) (j : Json) :
    Except DecodeError PublicIdentifier :=
  match j with
  | .str s =>
    match parseNsId s with
    | none => .error (.invalidIdentifier s)
    | some (ns?, id) => .ok ⟨ns?.getD defaultNamespace, id⟩
  | _ => .error .invalidType

/-- `Registry<T>` (`src/registry/mod.rs`): a two-key map from
`(namespace, id)` to the resource, modelled as an association list with its
`K2HashMap::get` lookup. -/
def Registry (α : Type) : Type :=
  List ((String × String) × α)

/-- `Registry::get` via `K2HashMap::get`. -/
def Registry.get {α : Type} (reg : Registry α) (pid : PublicIdentifier) :
    Option α :=
  List.lookup (pid.ns, pid.id) reg

/-- `ResourceSeed::deserialize` (`src/registry/serialize.rs`): delegate to
`PublicIdentifierSeed`, look the identifier up in the registry — failing with
the "not registered" error when absent — and produce a **clone** of the
registered resource (resources are cheaply cloneable handle structs; cloning
is value copying here). -/
def ResourceSeed.deserialize {α : Type} (reg : Registry α)
    (defaultNamespace : String) (j : Json) : Except DecodeError α :=
  match PublicIdentifierSeed.deserialize defaultNamespace j with
  | .error e => .error e
  | .ok pid =>
    match reg.get pid with
    | none => .error (.notRegistered pid.ns pid.id)
    | some r => .ok r

/-- Inserts into a JSON object map, overwriting an existing key
(`serde_json::Map::insert`). -/
def insertArg : List (String × Json) → String → Json → List (String × Json)
  | [], k, v => [(k, v)]
  | (k', v') :: rest, k, v =>
    if k' = k then (k, v) :: rest else (k', v') :: insertArg rest k v

/-- Inserts into a `HashMap<String, ContextValue>` model, overwriting an
existing key. -/
def insertExtra :
    List (String × ContextValue) → String → ContextValue →
      List (String × ContextValue)
  | [], k, v => [(k, v)]
  | (k', v') :: rest, k, v =>
    if k' = k then (k, v) :: rest else (k', v') :: insertExtra rest k v

/-- `serde`'s `usize` deserialization: a non-negative JSON integer. -/
def decodeUsize : Json → Except DecodeError Nat
  | .int n => if 0 ≤ n then .ok n.toNat else .error .invalidType
  | _ => .error .invalidType

/-- `SiteSourceConfig` as the spec describes the current revision:
`{ driver_handle, sample_size, raw_args }`, the driver handle being an
already-resolved clone of the registered resource (the resource type is a
parameter: drivers are opaque cloneable handles). -/
structure SiteSourceConfig (α : Type) where
  driver : α
  sampleSize : Option Nat
  args : List (String × Json)

/-- Modelled from the spec: the current `src/config/sites.rs` visitor for the
`"sites"` object is missing from the sources (the file present is an earlier
revision storing a `PublicIdentifier`; the `ConfigSeedBuilder` in
`src/config/mod.rs` wires a `ResourceSeed` into the seed it builds).  Per the
spec's seeded-loader steps, the `"type"` sibling is resolved through
`ResourceSeed` **during decoding** — pattern match, namespace defaulting,
registry lookup with failure when unregistered, clone into the config — while
`"sample_size"` decodes as an optional unsigned integer and every remaining
sibling is collected into the `raw_args` payload. -/
def siteSourceGo {α : Type} (reg : Registry α) (dns : String) :
    List (String × Json) → Option α → Option Nat → List (String × Json) →
      Except DecodeError (SiteSourceConfig α)
  | [], driver?, size?, args =>
    match driver? with
    | none => .error (.missingField "type")
    | some d => .ok ⟨d, size?, args⟩
  | (k, v) :: rest, driver?, size?, args =>
    if k = "type" then
      match ResourceSeed.deserialize reg dns v with
      | .error e => .error e
      | .ok d => siteSourceGo reg dns rest (some d) size? args
    else if k = "sample_size" then
      match decodeUsize v with
      | .error e => .error e
      | .ok n => siteSourceGo reg dns rest driver? (some n) args
    else siteSourceGo reg dns rest driver? size? (insertArg args k v)

/-- Modelled from the spec: decoding the whole `"sites"` value (see
`siteSourceGo` for what is missing from the sources); a non-object is a type
error. -/
def decodeSiteSource {α : Type} (reg : Registry α) (dns : String) (j : Json) :
    Except DecodeError (SiteSourceConfig α) :=
  match j with
  | .obj entries => siteSourceGo reg dns entries none none []
  | _ => .error .invalidType

/-! ## Run list and top-level config decoding (`src/config/runs.rs`,
`src/config/mod.rs`) -/

/-- The derived `RunConfig` deserializer: `name` and `template` are required
string fields (a duplicate required field is a serde duplicate-field error);
every other field lands in the flattened `extra` map through the untagged
`ContextValue` deserializer. -/
def runConfigGo :
    List (String × Json) → Option String → Option String →
      List (String × ContextValue) → Except DecodeError RunConfig
  | [], name?, tmpl?, extra =>
    match name? with
    | none => .error (.missingField "name")
    | some name =>
      match tmpl? with
      | none => .error (.missingField "template")
      | some tmpl => .ok ⟨name, tmpl, extra⟩
  | (k, v) :: rest, name?, tmpl?, extra =>
    if k = "name" then
      match name? with
      | some _ => .error (.duplicateField "name")
      | none =>
        match v with
        | .str s => runConfigGo rest (some s) tmpl? extra
        | _ => .error .invalidType
    else if k = "template" then
      match tmpl? with
      | some _ => .error (.duplicateField "template")
      | none =>
        match v with
        | .str s => runConfigGo rest name? (some s) extra
        | _ => .error .invalidType
    else
      match ContextValue.deserialize v with
      | .error e => .error e
      | .ok cv => runConfigGo rest name? tmpl? (insertExtra extra k cv)

/-- Deserializes one `RunConfig` object. -/
def decodeRunConfig : Json → Except DecodeError RunConfig
  | .obj entries => runConfigGo entries none none []
  | _ => .error .invalidType

/-- Elementwise `Vec<RunConfig>` deserialization. -/
def decodeRunList : List Json → Except DecodeError (List RunConfig)
  | [] => .ok []
  | j :: rest =>
    match decodeRunConfig j with
    | .error e => .error e
    | .ok r =>
      match decodeRunList rest with
      | .error e => .error e
      | .ok rs => .ok (r :: rs)

/-- Deserializes the `"runs"` value: a JSON array of run objects. -/
def decodeRuns : Json → Except DecodeError (List RunConfig)
  | .arr items => decodeRunList items
  | _ => .error .invalidType

/-- The decoded `Config`: `{ sites, runs }` (`src/config/mod.rs`). -/
structure Config (α : Type) where
  sites : SiteSourceConfig α
  runs : List RunConfig

/-- `ConfigVisitor::visit_map` (`src/config/mod.rs`): `"sites"` decodes
through the seeded sites decoder, `"runs"` through the run-list decoder, and
**any other key fails immediately with serde's unknown-field error**; at the
end both fields must be present. -/
def configVisitMap {α : Type} (reg : Registry α) (dns : String) :
    List (String × Json) → Option (SiteSourceConfig α) →
      Option (List RunConfig) → Except DecodeError (Config α)
  | [], sites?, runs? =>
    match sites? with
    | none => .error (.missingField "sites")
    | some s =>
      match runs? with
      | none => .error (.missingField "runs")
      | some r => .ok ⟨s, r⟩
  | (k, v) :: rest, sites?, runs? =>
    if k = "sites" then
      match decodeSiteSource reg dns v with
      | .error e => .error e
      | .ok s => configVisitMap reg dns rest (some s) runs?
    else if k = "runs" then
      match decodeRuns v with
      | .error e => .error e
      | .ok r => configVisitMap reg dns rest sites? (some r)
    else .error (.unknownField k)

/-- `ConfigSeed::deserialize`: the top-level document must be an object,
visited by `ConfigVisitor`. -/
def ConfigSeed.deserialize {α : Type} (reg : Registry α) (dns : String)
    (j : Json) : Except DecodeError (Config α) :=
  match j with
  | .obj entries => configVisitMap reg dns entries none none
  | _ => .error .invalidType

/-! ## Claim C4: identifier-typed fields resolve during decoding -/

/-- Walking the non-`type`, non-`sample_size` siblings never fails and leaves
the driver slot untouched. -/
theorem siteSourceGo_args {α : Type} (reg : Registry α) (dns : String) :
    ∀ (rest : List (String × Json)) (d : α) (size? : Option Nat)
      (args : List (String × Json)),
      (∀ p ∈ rest, p.1 ≠ "type" ∧ p.1 ≠ "sample_size") →
      ∃ size?' args',
        siteSourceGo reg dns rest (some d) size? args = .ok ⟨d, size?', args'⟩ := by
  intro rest
  induction rest with
  | nil => intro d size? args _; exact ⟨size?, args, rfl⟩
  | cons p rest ih =>
    intro d size? args hp
    obtain ⟨k, v⟩ := p
    obtain ⟨hk1, hk2⟩ := hp (k, v) (List.mem_cons_self _ _)
    simp only [siteSourceGo]
    rw [if_neg hk1, if_neg hk2]
    exact ih d size? (insertArg args k v)
      (fun q hq => hp q (List.mem_cons_of_mem _ hq))

/-- **C4** (spec-modelled: the current `sites` visitor is absent from the
sources; see `siteSourceGo`).  Decoding a `sites` object whose `type` string
parses as an identifier: (1) the `ns:id` pattern is what is matched, with the
seed's default namespace filled in when the namespace group is absent;
(2) when no resource is registered under the resolved `(namespace, id)`,
decoding itself fails with the not-registered error; (3) when one is, the
decode succeeds and the resulting config carries the clone of the registered
driver — the identifier is resolved during decoding, not stored and looked up
later. -/
theorem c4_sites_type_resolved_during_decoding {α : Type} (reg : Registry α)
    (dns t : String) (pid : PublicIdentifier) (rest : List (String × Json))
    (hparse : PublicIdentifierSeed.deserialize dns (.str t) = .ok pid)
    (hrest : ∀ p ∈ rest, p.1 ≠ "type" ∧ p.1 ≠ "sample_size") :
    (∀ (s : String) (ns? : Option String) (i : String),
      parseNsId s = some (ns?, i) →
      PublicIdentifierSeed.deserialize dns (.str s) = .ok ⟨ns?.getD dns, i⟩) ∧
    (reg.get pid = none →
      decodeSiteSource reg dns (.obj (("type", .str t) :: rest)) =
        .error (.notRegistered pid.ns pid.id)) ∧
    (∀ r, reg.get pid = some r →
      ∃ cfg, decodeSiteSource reg dns (.obj (("type", .str t) :: rest)) =
          .ok cfg ∧ cfg.driver = r) := by
  refine ⟨?_, ?_, ?_⟩
  · intro s ns? i hp
    simp only [PublicIdentifierSeed.deserialize]
    rw [hp]
  · intro hnone
    show siteSourceGo reg dns (("type", .str t) :: rest) none none [] = _
    simp [siteSourceGo, ResourceSeed.deserialize, hparse, hnone]
  · intro r hsome
    show ∃ cfg, siteSourceGo reg dns (("type", .str t) :: rest) none none [] =
      .ok cfg ∧ cfg.driver = r
    have hstep : siteSourceGo reg dns (("type", .str t) :: rest) none none [] =
        siteSourceGo reg dns rest (some r) none [] := by
      simp [siteSourceGo, ResourceSeed.deserialize, hparse, hsome]
    obtain ⟨size?', args', hok⟩ := siteSourceGo_args reg dns rest r none [] hrest
    exact ⟨⟨r, size?', args'⟩, hstep.trans hok, rfl⟩

/-- Closed instance of `c4_sites_type_resolved_during_decoding` with driver
handles stood in by naturals: under default namespace `"std"`, the bare id
`"vector"` resolves to `("std", "vector")`; with an empty registry the decode
of `{"type": "vector", "file": …}` fails as not-registered, and with
`("std","vector") ↦ 7` registered it succeeds carrying driver `7`. -/
theorem c4_sites_type_resolved_during_decoding_witness :
    (PublicIdentifierSeed.deserialize "std" (.str "vector") =
      .ok ⟨"std", "vector"⟩) ∧
    (decodeSiteSource (α := Nat) [] "std"
        (.obj [("type", .str "vector"), ("file", .str "sites.shp")]) =
      .error (.notRegistered "std" "vector")) ∧
    ∃ cfg, decodeSiteSource [(("std", "vector"), 7)] "std"
        (.obj [("type", .str "vector"), ("file", .str "sites.shp")]) =
        .ok cfg ∧ cfg.driver = 7 := by
  refine ⟨?_, ?_, ?_⟩
  · exact (c4_sites_type_resolved_during_decoding (α := Nat) [] "std" "vector"
      ⟨"std", "vector"⟩ [("file", .str "sites.shp")] rfl (by decide)).1
      "vector" none "vector" rfl
  · exact (c4_sites_type_resolved_during_decoding (α := Nat) [] "std" "vector"
      ⟨"std", "vector"⟩ [("file", .str "sites.shp")] rfl (by decide)).2.1 rfl
  · exact (c4_sites_type_resolved_during_decoding [(("std", "vector"), 7)] "std"
      "vector" ⟨"std", "vector"⟩ [("file", .str "sites.shp")] rfl
      (by decide)).2.2 7 rfl

/-! ## Claim C10: the top-level config decoder is strict -/

/-- **C10**.  The top-level `ConfigVisitor` accepts only the keys `"sites"`
and `"runs"`: a successful decode implies every key of the object was one of
the two (nothing is silently ignored or collected), and the moment the
visitor meets any other key it fails with the unknown-field error. -/
theorem c10_config_top_level_strict {α : Type} (reg : Registry α)
    (dns : String) :
    (∀ (entries : List (String × Json)) (sites? : Option (SiteSourceConfig α))
        (runs? : Option (List RunConfig)) (cfg : Config α),
      configVisitMap reg dns entries sites? runs? = .ok cfg →
      ∀ p ∈ entries, p.1 = "sites" ∨ p.1 = "runs") ∧
    (∀ (k : String) (v : Json) (rest : List (String × Json))
        (sites? : Option (SiteSourceConfig α)) (runs? : Option (List RunConfig)),
      k ≠ "sites" → k ≠ "runs" →
      configVisitMap reg dns ((k, v) :: rest) sites? runs? =
        .error (.unknownField k)) := by
  constructor
  · intro entries
    induction entries with
    | nil => intro _ _ _ _ p hp; simp at hp
    | cons q rest ih =>
      intro sites? runs? cfg h p hp
      obtain ⟨k, v⟩ := q
      by_cases hk1 : k = "sites"
      · rcases List.mem_cons.mp hp with hq | hq
        · left; rw [hq, hk1]
        · subst hk1
          rw [show configVisitMap reg dns (("sites", v) :: rest) sites? runs? =
              (match decodeSiteSource reg dns v with
                | .error e => .error e
                | .ok s => configVisitMap reg dns rest (some s) runs?) from rfl] at h
          cases hd : decodeSiteSource reg dns v with
          | error e => rw [hd] at h; cases h
          | ok s =>
            rw [hd] at h
            exact ih (some s) runs? cfg h p hq
      · by_cases hk2 : k = "runs"
        · rcases List.mem_cons.mp hp with hq | hq
          · right; rw [hq, hk2]
          · subst hk2
            rw [show configVisitMap reg dns (("runs", v) :: rest) sites? runs? =
                (match decodeRuns v with
                  | .error e => .error e
                  | .ok r => configVisitMap reg dns rest sites? (some r)) from rfl] at h
            cases hd : decodeRuns v with
            | error e => rw [hd] at h; cases h
            | ok r =>
              rw [hd] at h
              exact ih sites? (some r) cfg h p hq
        · exfalso
          rw [show configVisitMap reg dns ((k, v) :: rest) sites? runs? =
              (if k = "sites" then
                match decodeSiteSource reg dns v with
                | .error e => .error e
                | .ok s => configVisitMap reg dns rest (some s) runs?
              else if k = "runs" then
                match decodeRuns v with
                | .error e => .error e
                | .ok r => configVisitMap reg dns rest sites? (some r)
              else .error (.unknownField k)) from rfl] at h
          rw [if_neg hk1, if_neg hk2] at h
          cases h
  · intro k v rest sites? runs? hk1 hk2
    simp only [configVisitMap]
    rw [if_neg hk1, if_neg hk2]

/-- Closed instance of `c10_config_top_level_strict`: a successfully decoded
two-key document has only `"sites"`/`"runs"` keys, and the stray key
`"bogus"` makes the visitor fail with the unknown-field error. -/
theorem c10_config_top_level_strict_witness :
    (∀ p ∈ ([("sites", Json.obj [("type", Json.str "vector")]),
        ("runs", Json.arr [Json.obj [("name", Json.str "r1"),
          ("template", Json.str "t.txt")]])] : List (String × Json)),
      p.1 = "sites" ∨ p.1 = "runs") ∧
    configVisitMap (α := Nat) [(("std", "vector"), 7)] "std"
        [("bogus", Json.null)] none none = .error (.unknownField "bogus") :=
  ⟨(c10_config_top_level_strict [(("std", "vector"), 7)] "std").1
      [("sites", Json.obj [("type", Json.str "vector")]),
        ("runs", Json.arr [Json.obj [("name", Json.str "r1"),
          ("template", Json.str "t.txt")]])] none none
      ⟨⟨7, none, []⟩, [⟨"r1", "t.txt", []⟩]⟩ rfl,
   (c10_config_top_level_strict [(("std", "vector"), 7)] "std").2
      "bogus" Json.null [] none none (by decide) (by decide)⟩

end Pythia

